import Mathlib

/-!
Shallow embedding of the gossip-glomers repository: the maelstrom runtime
library (src/maelstrom/src/lib.rs) and the echo and broadcast applications
(src/echo/src/main.rs, src/broadcast/src/main.rs).  Machine integers (u64)
are modelled as Nat with the explicit bound u64Max; a Rust panic or
propagated error is modelled as Option.none.
-/

namespace GossipGlomers

/-- JSON-like values, the fragment of serde_json::Value the repository uses. -/
inductive Json where
  | null : Json
  | str (s : String) : Json
  | num (n : Nat) : Json
  | arr (xs : List Json) : Json
  | obj (kvs : List (String × Json)) : Json

/-- A message body: serde_json::Map from String keys to values, modelled as an
association list whose observable behavior is getKey/insertKey. -/
abbrev Body := List (String × Json)

/-- Lookup of a key in a body, the model of serde_json::Map::get. -/
def getKey : Body → String → Option Json
  | [], _ => none
  | (k, v) :: rest, key => if k = key then some v else getKey rest key

/-- Insertion into a body, the model of serde_json::Map::insert: replaces the
value under an existing key, otherwise adds the pair. -/
def insertKey : Body → String → Json → Body
  | [], key, val => [(key, val)]
  | (k, v) :: rest, key, val =>
      if k = key then (key, val) :: rest else (k, v) :: insertKey rest key val

/-- Coercion of a Json value to a u64, the model of Value::as_u64. -/
def Json.asU64 : Json → Option Nat
  | .num n => some n
  | _ => none

/-- Coercion of a Json value to a string, the model of Value::as_str. -/
def Json.asStr : Json → Option String
  | .str s => some s
  | _ => none

/-- The Message struct of src/maelstrom/src/lib.rs: src, dest and body. -/
structure Message where
  src : String
  dest : String
  body : Body

/-- Message::r#type of lib.rs: reads the `type` field of the body; the source
panics when it is absent or not a string, modelled as none. -/
def Message.typeField : Message → Option String
  | m => (getKey m.body "type").bind Json.asStr

/-- Message::msg_id of lib.rs: reads the `msg_id` field of the body; the source
panics when it is absent or not a u64, modelled as none. -/
def Message.msgIdField : Message → Option Nat
  | m => (getKey m.body "msg_id").bind Json.asU64

/-- The largest u64 value, u64::MAX. -/
def u64Max : Nat := 2 ^ 64 - 1

/-- The per-node runtime state of NodeImpl in lib.rs that the claims touch:
the identity cell `id`, the ID-generator counter `next_msg_id`, and the
sequence of messages written to stdout so far. -/
structure NodeCore where
  id : Option String
  next_msg_id : Nat
  output : List Message

/-- NodeImpl::produce_msg_id of lib.rs: panics (none) when the counter holds
u64::MAX, otherwise returns the counter and the incremented counter. -/
def produce_msg_id (next : Nat) : Option (Nat × Nat) :=
  if next = u64Max then none else some (next, next + 1)

/-- Node::reply of lib.rs (lines 86-100): stamps in_reply_to with the original
message's msg_id (panicking when absent), allocates a fresh msg_id into the
body, and writes a message whose src is the original's dest and whose dest is
the original's src. -/
def reply (core : NodeCore) (msg : Message) (body : Body) : Option NodeCore := do
  let n ← msg.msgIdField
  let (i, next) ← produce_msg_id core.next_msg_id
  let body := insertKey (insertKey body "in_reply_to" (.num n)) "msg_id" (.num i)
  some { core with
           next_msg_id := next,
           output := core.output ++ [⟨msg.dest, msg.src, body⟩] }

/-- NodeImpl::set_id of lib.rs: overwrites the identity cell. -/
def set_id (core : NodeCore) (id : Option String) : NodeCore :=
  { core with id := id }

/-- The handler registered by NodeImpl::add_init_handler in lib.rs: stores the
`node_id` field of the body into the identity cell via set_id, then replies
with a body whose type is `init_ok`. -/
def init_handler (core : NodeCore) (msg : Message) : Option NodeCore :=
  let core := set_id core ((getKey msg.body "node_id").bind Json.asStr)
  reply core msg (insertKey [] "type" (.str "init_ok"))

/-- Modelled from the spec: `Framework::send`, used by the broadcast
application but absent from src/ (only src/maelstrom's NodeImpl API is
present).  Per the spec it "stamps `source` from Identity, constructs a
Message, enqueues it for output"; reading Identity before the handshake
fails, modelled as none. -/
def send (core : NodeCore) (dest : String) (body : Body) : Option NodeCore := do
  let src ← core.id
  some { core with output := core.output ++ [⟨src, dest, body⟩] }

/-- Iterated send, the model of broadcast's `for neighbor in &self.neighbors`
loop in src/broadcast/src/main.rs. -/
def sendAll (core : NodeCore) (ns : List String) (body : Body) :
    Option NodeCore :=
  match ns with
  | [] => some core
  | nb :: rest => do
      let core ← send core nb body
      sendAll core rest body

/-- A sequence of N allocations from NodeImpl::produce_msg_id, threading the
counter; fails as soon as one allocation panics. -/
def allocIds : Nat → Nat → Option (List Nat × Nat)
  | 0, next => some ([], next)
  | n + 1, next => do
      let (i, next1) ← produce_msg_id next
      let (ids, nf) ← allocIds n next1
      some (i :: ids, nf)

/-- EchoNode::echo of src/echo/src/main.rs: clones the inbound body, rewrites
its type to `echo_ok`, and replies. -/
def echo (core : NodeCore) (msg : Message) : Option NodeCore :=
  reply core msg (insertKey msg.body "type" (.str "echo_ok"))

/-- The state of BroadcastNode in src/broadcast/src/main.rs: the set of seen
values and the neighbor list. -/
structure BroadcastNode where
  seen : List Nat
  neighbors : List String

/-- Membership-based model of HashSet::insert's return value: true when the
value was newly inserted. -/
def BroadcastNode.insertSeen (bn : BroadcastNode) (m : Nat) :
    Bool × BroadcastNode :=
  if m ∈ bn.seen then (false, bn) else (true, { bn with seen := m :: bn.seen })

/-- BroadcastNode::broadcast of src/broadcast/src/main.rs: reads the `message`
field (panicking when absent), and when the value is new, replies
`broadcast_ok` and forwards a `broadcast` message to every neighbor; when the
value was already seen it does nothing. -/
def broadcast (bn : BroadcastNode) (core : NodeCore) (msg : Message) :
    Option (BroadcastNode × NodeCore) := do
  let message ← (getKey msg.body "message").bind Json.asU64
  match bn.insertSeen message with
  | (false, bn1) => some (bn1, core)
  | (true, bn1) => do
      let core ← reply core msg (insertKey [] "type" (.str "broadcast_ok"))
      let core ← sendAll core bn1.neighbors
          (insertKey (insertKey [] "type" (.str "broadcast")) "message"
            (.num message))
      some (bn1, core)

/-- Keyed lookup in a handler registry (HashMap keyed by message type),
modelled as an association list. -/
def lookupH {H : Type} : List (String × H) → String → Option H
  | [], _ => none
  | (k, h) :: rest, key => if k = key then some h else lookupH rest key

/-- HashMap::remove_entry as used by NodeImpl::run: removes the entry for the
key and returns the handler together with the remaining registry. -/
def removeEntry {H : Type} :
    List (String × H) → String → Option (H × List (String × H))
  | [], _ => none
  | (k, h) :: rest, key =>
      if k = key then some (h, rest)
      else
        match removeEntry rest key with
        | some (h2, rest2) => some (h2, (k, h) :: rest2)
        | none => none

/-- HashMap::insert on a handler registry: replaces the entry under an
existing key, otherwise adds the pair. -/
def insertH {H : Type} : List (String × H) → String → H → List (String × H)
  | [], key, h => [(key, h)]
  | (k, h0) :: rest, key, h =>
      if k = key then (key, h) :: rest else (k, h0) :: insertH rest key h

/-- The state NodeImpl::run iterates on: the node state together with the
handler registry. -/
structure RunSt (St H : Type) where
  st : St
  handlers : List (String × H)

/-- One iteration of the loop body of NodeImpl::run (lib.rs lines 197-200),
generic in how a handler acts on the node state and registry: remove the
entry for the message's type, invoke the handler, reinsert the removed
handler under its type.  Messages whose type has no registered handler are
dropped. -/
def dispatchStep {St H : Type}
    (app : H → St → List (String × H) → Message → Option (St × List (String × H)))
    (s : RunSt St H) (msg : Message) (t : String) :
    Option (RunSt St H) :=
  match removeEntry s.handlers t with
  | none => some s
  | some (h, rest) => do
      let (st2, hs2) ← app h s.st rest msg
      some ⟨st2, insertH hs2 t h⟩

/-- NodeImpl::run of lib.rs: fold the dispatch step over the inbound messages
in order, recording (in order) the messages for which a handler was invoked.
Reading the type of a message panics when absent (none); a handler error
stops the loop (the `?` operator in the source). -/
def runLoop {St H : Type}
    (app : H → St → List (String × H) → Message → Option (St × List (String × H))) :
    RunSt St H → List Message → Option (RunSt St H × List Message)
  | s, [] => some (s, [])
  | s, msg :: rest => do
      let t ← msg.typeField
      match removeEntry s.handlers t with
      | none => runLoop app s rest
      | some (h, hs) => do
          let (st2, hs2) ← app h s.st hs msg
          let (s1, tr) ← runLoop app ⟨st2, insertH hs2 t h⟩ rest
          some (s1, msg :: tr)

/-- The handlers registerable on the unit-typed NodeImpl, as the sealed trait
exposes them: the library's own init handler may write the identity cell via
set_id, while application handlers (registered through `handle`) only receive
the `dyn Node` interface — reply and state — so they can read and write the
msg-id counter and the output but never the identity cell and never the
registry. -/
inductive LibHandler where
  | initH : LibHandler
  | user (f : Nat → List Message → Message → Option (Nat × List Message)) :
      LibHandler

/-- Action of a LibHandler on the node state. -/
def applyHandler : LibHandler → NodeCore → Message → Option NodeCore
  | .initH, core, msg => init_handler core msg
  | .user f, core, msg =>
      (f core.next_msg_id core.output msg).map fun p =>
        { core with next_msg_id := p.1, output := p.2 }

/-- The handler-application function of the actual library: handlers act on
the node state and cannot touch the registry. -/
def nodeApp (h : LibHandler) (core : NodeCore)
    (hs : List (String × LibHandler)) (msg : Message) :
    Option (NodeCore × List (String × LibHandler)) :=
  (applyHandler h core msg).map fun core2 => (core2, hs)

/-- The freshly constructed node of NodeImpl::new: no identity, counter at 1,
nothing written, and only the init handler registered. -/
def newNode : RunSt NodeCore LibHandler :=
  ⟨⟨none, 1, []⟩, [("init", LibHandler.initH)]⟩

theorem getKey_insertKey_self (b : Body) (k : String) (v : Json) :
    getKey (insertKey b k v) k = some v := by
  induction b with
  | nil => simp [insertKey, getKey]
  | cons p rest ih =>
      by_cases h : p.1 = k <;> simp [insertKey, getKey, h, ih]

theorem getKey_insertKey_ne (b : Body) (k k' : String) (v : Json) (h : k ≠ k') :
    getKey (insertKey b k v) k' = getKey b k' := by
  induction b with
  | nil => simp [insertKey, getKey, h]
  | cons p rest ih =>
      obtain ⟨pk, pv⟩ := p
      by_cases hp : pk = k
      · subst hp
        simp [insertKey, getKey, h]
      · by_cases hp' : pk = k' <;>
          simp [insertKey, getKey, hp, hp', Ne.symm h, ih]

/-- Boolean test that a message's body `type` field equals the given tag. -/
def hasType (m : Message) (t : String) : Bool :=
  match getKey m.body "type" with
  | some (Json.str s) => s == t
  | _ => false

/-- A user handler that leaves the node state unchanged, for instantiating
the dispatch theorems at a concrete registry. -/
def noopHandler : LibHandler :=
  .user fun nx out _ => some (nx, out)

/-- A post-handshake node with the noop handler registered under `echo`,
for instantiating the dispatch theorems. -/
def nodeWithNoopEcho : RunSt NodeCore LibHandler :=
  ⟨⟨some "n1", 1, []⟩, [("init", LibHandler.initH), ("echo", noopHandler)]⟩

theorem reply_eq (core : NodeCore) (msg : Message) (body : Body) (n : Nat)
    (hn : msg.msgIdField = some n) (hfresh : core.next_msg_id ≠ u64Max) :
    reply core msg body = some ⟨core.id, core.next_msg_id + 1,
      core.output ++ [⟨msg.dest, msg.src,
        insertKey (insertKey body "in_reply_to" (.num n)) "msg_id"
          (.num core.next_msg_id)⟩]⟩ := by
  simp [reply, hn, produce_msg_id, hfresh]

theorem reply_none_of_no_msg_id (core : NodeCore) (msg : Message) (body : Body)
    (h : msg.msgIdField = none) : reply core msg body = none := by
  simp [reply, h]

theorem reply_id_preserved (core c2 : NodeCore) (msg : Message) (body : Body)
    (h : reply core msg body = some c2) : c2.id = core.id := by
  rcases hn : msg.msgIdField with _ | n
  · rw [reply_none_of_no_msg_id core msg body hn] at h
    cases h
  · rcases hp : produce_msg_id core.next_msg_id with _ | p
    · simp [reply, hn, hp] at h
    · simp [reply, hn, hp] at h
      rw [← h]

theorem sendAll_eq (core : NodeCore) (ns : List String) (body : Body)
    (nid : String) (hid : core.id = some nid) :
    sendAll core ns body = some
      { core with output :=
          core.output ++ ns.map fun nb => ⟨nid, nb, body⟩ } := by
  induction ns generalizing core with
  | nil => simp [sendAll]
  | cons nb rest ih =>
      simp only [sendAll, send, hid, Option.bind_eq_bind, Option.some_bind]
      rw [ih _ rfl]
      simp

theorem allocIds_some_eq (N n : Nat) (ids : List Nat) (f : Nat)
    (h : allocIds N n = some (ids, f)) :
    ids = List.range' n N ∧ f = n + N := by
  induction N generalizing n ids f with
  | zero =>
      simp [allocIds] at h
      simp [List.range', h.1.symm, h.2.symm]
  | succ N ih =>
      by_cases hn : n = u64Max
      · simp [allocIds, produce_msg_id, hn] at h
      · simp only [allocIds, produce_msg_id, if_neg hn, Option.bind_eq_bind,
          Option.some_bind] at h
        rcases hrec : allocIds N (n + 1) with _ | pr
        · rw [hrec] at h
          cases h
        · obtain ⟨ids2, f2⟩ := pr
          rw [hrec] at h
          simp at h
          obtain ⟨h1, h2⟩ := ih (n + 1) ids2 f2 hrec
          rw [← h.1, ← h.2, h1, h2]
          constructor
          · rw [List.range'_succ]
          · omega

theorem allocIds_eq (N n : Nat) (h : n + N ≤ u64Max) :
    allocIds N n = some (List.range' n N, n + N) := by
  induction N generalizing n with
  | zero => simp [allocIds, List.range']
  | succ N ih =>
      have hn : n ≠ u64Max := by omega
      simp only [allocIds, produce_msg_id, if_neg hn, Option.bind_eq_bind,
        Option.some_bind]
      rw [ih (n + 1) (by omega)]
      simp [List.range'_succ]
      omega

theorem lookupH_mem {H : Type} (r : List (String × H)) (t : String) (h : H)
    (hl : lookupH r t = some h) : (t, h) ∈ r := by
  induction r with
  | nil => cases hl
  | cons p rest ih =>
      obtain ⟨k, h0⟩ := p
      by_cases hk : k = t
      · subst hk
        rw [lookupH, if_pos rfl] at hl
        cases hl
        exact List.mem_cons_self _ _
      · rw [lookupH, if_neg hk] at hl
        exact List.mem_cons_of_mem _ (ih hl)

theorem lookupH_isSome_iff_mem {H : Type} (r : List (String × H)) (t : String) :
    (lookupH r t).isSome ↔ t ∈ r.map Prod.fst := by
  induction r with
  | nil => simp [lookupH]
  | cons p rest ih =>
      obtain ⟨k, h⟩ := p
      by_cases hk : k = t
      · subst hk
        simp [lookupH]
      · simp [lookupH, hk, ih, Ne.symm hk]

theorem removeEntry_eq_none_iff {H : Type} (r : List (String × H)) (t : String) :
    removeEntry r t = none ↔ lookupH r t = none := by
  induction r with
  | nil => simp [removeEntry, lookupH]
  | cons p rest ih =>
      obtain ⟨k, h⟩ := p
      by_cases hk : k = t
      · simp [removeEntry, lookupH, hk]
      · simp only [removeEntry, lookupH, if_neg hk, ← ih]
        cases removeEntry rest t <;> simp

theorem removeEntry_lookupH {H : Type} (r : List (String × H)) (t : String)
    (h0 : H) (rest : List (String × H))
    (h : removeEntry r t = some (h0, rest)) : lookupH r t = some h0 := by
  induction r generalizing rest with
  | nil => simp [removeEntry] at h
  | cons p tail ih =>
      obtain ⟨k, hh⟩ := p
      by_cases hk : k = t
      · rw [removeEntry, if_pos hk] at h
        rw [lookupH, if_pos hk]
        simp only [Option.some.injEq, Prod.mk.injEq] at h
        rw [h.1]
      · rw [removeEntry, if_neg hk] at h
        rw [lookupH, if_neg hk]
        cases hrec : removeEntry tail t with
        | none => rw [hrec] at h; cases h
        | some pr =>
            obtain ⟨h2, rest2⟩ := pr
            rw [hrec] at h
            cases h
            exact ih rest2 hrec

theorem keys_removeEntry {H : Type} (r : List (String × H)) (t : String)
    (h0 : H) (rest : List (String × H))
    (h : removeEntry r t = some (h0, rest)) :
    rest.map Prod.fst = (r.map Prod.fst).erase t := by
  induction r generalizing rest with
  | nil => simp [removeEntry] at h
  | cons p tail ih =>
      obtain ⟨k, hh⟩ := p
      by_cases hk : k = t
      · subst hk
        rw [removeEntry, if_pos rfl] at h
        cases h
        rw [List.map_cons, List.erase_cons_head]
      · rw [removeEntry, if_neg hk] at h
        cases hrec : removeEntry tail t with
        | none => rw [hrec] at h; cases h
        | some pr =>
            obtain ⟨h2, rest2⟩ := pr
            rw [hrec] at h
            cases h
            rw [List.map_cons, List.map_cons, ih rest2 hrec,
              List.erase_cons_tail]
            simp [hk]

theorem removeEntry_keys_nodup {H : Type} (r : List (String × H)) (t : String)
    (h0 : H) (rest : List (String × H))
    (hnd : (r.map Prod.fst).Nodup)
    (h : removeEntry r t = some (h0, rest)) :
    (rest.map Prod.fst).Nodup ∧ t ∉ rest.map Prod.fst := by
  rw [keys_removeEntry r t h0 rest h]
  exact ⟨hnd.erase t, by simp [hnd.mem_erase_iff]⟩

theorem lookupH_removeEntry_self {H : Type} (r : List (String × H)) (t : String)
    (h0 : H) (rest : List (String × H))
    (hnd : (r.map Prod.fst).Nodup)
    (h : removeEntry r t = some (h0, rest)) : lookupH rest t = none := by
  have hmem := (removeEntry_keys_nodup r t h0 rest hnd h).2
  rcases hl : lookupH rest t with _ | v
  · rfl
  · exact absurd ((lookupH_isSome_iff_mem rest t).1 (by simp [hl])) hmem

theorem lookupH_removeEntry_ne {H : Type} (r : List (String × H)) (t k : String)
    (h0 : H) (rest : List (String × H))
    (h : removeEntry r t = some (h0, rest)) (hk : k ≠ t) :
    lookupH rest k = lookupH r k := by
  induction r generalizing rest with
  | nil => simp [removeEntry] at h
  | cons p tail ih =>
      obtain ⟨k0, hh⟩ := p
      by_cases hk0 : k0 = t
      · subst hk0
        rw [removeEntry, if_pos rfl] at h
        cases h
        rw [lookupH, if_neg (fun he => hk (he ▸ rfl) : ¬k0 = k)]
      · rw [removeEntry, if_neg hk0] at h
        cases hrec : removeEntry tail t with
        | none => rw [hrec] at h; cases h
        | some pr =>
            obtain ⟨h2, rest2⟩ := pr
            rw [hrec] at h
            cases h
            by_cases hkk : k0 = k
            · rw [lookupH, if_pos hkk, lookupH, if_pos hkk]
            · rw [lookupH, if_neg hkk, lookupH, if_neg hkk]
              exact ih rest2 hrec

theorem lookupH_insertH_self {H : Type} (r : List (String × H)) (t : String)
    (h : H) : lookupH (insertH r t h) t = some h := by
  induction r with
  | nil => simp [insertH, lookupH]
  | cons p rest ih =>
      obtain ⟨k, h0⟩ := p
      by_cases hk : k = t <;> simp [insertH, lookupH, hk, ih]

theorem lookupH_insertH_ne {H : Type} (r : List (String × H)) (t k : String)
    (h : H) (hk : k ≠ t) : lookupH (insertH r t h) k = lookupH r k := by
  induction r with
  | nil => simp [insertH, lookupH, Ne.symm hk]
  | cons p rest ih =>
      obtain ⟨k0, h0⟩ := p
      by_cases hk0 : k0 = t
      · subst hk0
        simp [insertH, lookupH, Ne.symm hk]
      · by_cases hkk : k0 = k <;> simp [insertH, lookupH, hk0, hkk, hk, ih]

theorem keys_insertH {H : Type} (r : List (String × H)) (t : String) (h : H) :
    (insertH r t h).map Prod.fst =
      if t ∈ r.map Prod.fst then r.map Prod.fst else r.map Prod.fst ++ [t] := by
  induction r with
  | nil => simp [insertH]
  | cons p rest ih =>
      obtain ⟨k, h0⟩ := p
      by_cases hk : k = t
      · simp [insertH, hk]
      · simp only [insertH, if_neg hk, List.map_cons, ih, List.mem_cons]
        by_cases hmem : t ∈ rest.map Prod.fst <;>
          simp [hmem, Ne.symm hk]

theorem insertH_keys_nodup {H : Type} (r : List (String × H)) (t : String)
    (h : H) (hnd : (r.map Prod.fst).Nodup) :
    ((insertH r t h).map Prod.fst).Nodup := by
  rw [keys_insertH]
  by_cases hmem : t ∈ r.map Prod.fst <;> simp [hmem, List.nodup_append, hnd]

theorem dispatch_restores_lookup {H : Type} (r : List (String × H))
    (t : String) (h0 : H) (rest : List (String × H))
    (h : removeEntry r t = some (h0, rest)) (k : String) :
    lookupH (insertH rest t h0) k = lookupH r k := by
  by_cases hk : k = t
  · subst hk
    rw [lookupH_insertH_self, removeEntry_lookupH r k h0 rest h]
  · rw [lookupH_insertH_ne rest t k h0 hk,
      lookupH_removeEntry_ne r t k h0 rest h hk]

/-- Claim C1, corrected: counterexample to the second half of the claim.  On
an original message whose body has no `msg_id`, `reply` does not succeed:
Message::msg_id panics (`expect("msg_id is required")`), modelled as none, so
no reply without `in_reply_to` is ever emitted. -/
theorem reply_without_msg_id_panics_cex :
    reply ⟨none, 1, []⟩ ⟨"c1", "n1", [("type", Json.str "echo")]⟩ [] = none :=
  rfl

/-- Claim C1, amended: for every call to reply on an original message whose
body contains msg_id = n, the emitted reply's body contains in_reply_to = n;
and on an original message whose body contains no msg_id, reply does not
succeed (the process panics) instead of emitting a reply without
in_reply_to. -/
theorem reply_in_reply_to_correlation (core : NodeCore) (msg : Message)
    (body : Body) (hfresh : core.next_msg_id ≠ u64Max) :
    (∀ n, msg.msgIdField = some n →
      ∃ core2 out, reply core msg body = some core2 ∧
        core2.output = core.output ++ [out] ∧
        getKey out.body "in_reply_to" = some (.num n)) ∧
    (msg.msgIdField = none → reply core msg body = none) := by
  constructor
  · intro n hn
    refine ⟨_, _, reply_eq core msg body n hn hfresh, rfl, ?_⟩
    rw [getKey_insertKey_ne _ _ _ _ (by decide)]
    exact getKey_insertKey_self _ _ _
  · intro h
    exact reply_none_of_no_msg_id core msg body h

/-- Witness for C1's theorem at a concrete node and message with msg_id 7. -/
theorem reply_in_reply_to_correlation_witness :
    (∀ n, (⟨"c1", "n1", [("msg_id", Json.num 7)]⟩ : Message).msgIdField
        = some n →
      ∃ core2 out, reply ⟨none, 1, []⟩
          ⟨"c1", "n1", [("msg_id", Json.num 7)]⟩ [] = some core2 ∧
        core2.output = (⟨none, 1, []⟩ : NodeCore).output ++ [out] ∧
        getKey out.body "in_reply_to" = some (.num n)) ∧
    ((⟨"c1", "n1", [("msg_id", Json.num 7)]⟩ : Message).msgIdField = none →
      reply ⟨none, 1, []⟩ ⟨"c1", "n1", [("msg_id", Json.num 7)]⟩ [] = none) :=
  reply_in_reply_to_correlation ⟨none, 1, []⟩
    ⟨"c1", "n1", [("msg_id", Json.num 7)]⟩ [] (by decide)

/-- Claim C4, confirmed: N allocations on a fresh node (counter starts at 1)
yield exactly the identifiers 1, 2, ..., N: pairwise distinct, strictly
increasing in allocation order, and starting from 1. -/
theorem msg_ids_strictly_increasing_from_one (N : Nat) (hN : N ≤ u64Max - 1) :
    allocIds N 1 = some (List.range' 1 N, 1 + N) ∧
    (List.range' 1 N).Pairwise (· < ·) ∧
    (List.range' 1 N).Nodup ∧
    (0 < N → (List.range' 1 N).head? = some 1) := by
  have h64 : u64Max = 18446744073709551615 := by decide
  refine ⟨allocIds_eq N 1 (by omega), List.pairwise_lt_range' 1 N,
    List.nodup_range' 1 N, ?_⟩
  intro h
  cases N with
  | zero => omega
  | succ n => rfl

/-- Witness for C4's theorem at N = 3. -/
theorem msg_ids_strictly_increasing_from_one_witness :
    allocIds 3 1 = some (List.range' 1 3, 1 + 3) ∧
    (List.range' 1 3).Pairwise (· < ·) ∧
    (List.range' 1 3).Nodup ∧
    (0 < 3 → (List.range' 1 3).head? = some 1) :=
  msg_ids_strictly_increasing_from_one 3 (by decide)

/-- Claim C6, corrected: counterexample to "the outgoing message's source is
stamped from the node's Identity".  The source code sets `src: msg.dest`:
a node whose Identity holds "n1" replying to a message addressed to "n2"
stamps source "n2", not the stored identity "n1". -/
theorem reply_src_not_from_identity_cex :
    (reply ⟨some "n1", 1, []⟩ ⟨"c1", "n2", [("msg_id", Json.num 1)]⟩ []).map
        (fun c => c.output.map Message.src) = some ["n2"] ∧
    (⟨some "n1", 1, []⟩ : NodeCore).id = some "n1" ∧ "n2" ≠ "n1" :=
  ⟨rfl, rfl, by decide⟩

/-- Claim C6, amended: for every call to reply, the outgoing message's
destination equals the original message's source, and the outgoing message's
source equals the original message's destination (the reply swaps the
original's addresses; the Identity cell is not read). -/
theorem reply_swaps_src_dest (core : NodeCore) (msg : Message) (body : Body)
    (n : Nat) (hn : msg.msgIdField = some n)
    (hfresh : core.next_msg_id ≠ u64Max) :
    ∃ core2 out, reply core msg body = some core2 ∧
      core2.output = core.output ++ [out] ∧
      out.dest = msg.src ∧ out.src = msg.dest :=
  ⟨_, _, reply_eq core msg body n hn hfresh, rfl, rfl, rfl⟩

/-- Witness for C6's amended theorem at a concrete node and message. -/
theorem reply_swaps_src_dest_witness :
    ∃ core2 out, reply ⟨some "n1", 1, []⟩
        ⟨"c1", "n2", [("msg_id", Json.num 5)]⟩ [] = some core2 ∧
      core2.output = (⟨some "n1", 1, []⟩ : NodeCore).output ++ [out] ∧
      out.dest = "c1" ∧ out.src = "n2" :=
  reply_swaps_src_dest ⟨some "n1", 1, []⟩
    ⟨"c1", "n2", [("msg_id", Json.num 5)]⟩ [] 5 rfl (by decide)

/-- Claim C7, confirmed: the ID generator never reuses a value (every
successful allocation sequence is pairwise distinct and strictly
increasing), and once the counter reaches u64::MAX the next allocation
panics (none) instead of wrapping or reusing an id. -/
theorem idgen_fatal_at_max_never_reuses :
    produce_msg_id u64Max = none ∧
    ∀ N n ids f, allocIds N n = some (ids, f) →
      ids.Nodup ∧ ids.Pairwise (· < ·) := by
  constructor
  · simp [produce_msg_id]
  · intro N n ids f h
    obtain ⟨h1, _⟩ := allocIds_some_eq N n ids f h
    subst h1
    exact ⟨List.nodup_range' _ _, List.pairwise_lt_range' _ _⟩

/-- Witness for C7's theorem: exhaustion at the cap, and distinctness of a
concrete allocation run starting at 5. -/
theorem idgen_fatal_at_max_never_reuses_witness :
    produce_msg_id u64Max = none ∧
    ([5, 6] : List Nat).Nodup ∧ ([5, 6] : List Nat).Pairwise (· < ·) :=
  ⟨idgen_fatal_at_max_never_reuses.1,
   idgen_fatal_at_max_never_reuses.2 2 5 [5, 6] 7 (by decide)⟩

/-- Claim C9, confirmed: on the post-handshake echo node (identity "n1", one
msg_id already consumed by init_ok), the inbound echo message with msg_id 1
and echo "hi" yields exactly one output with src/dest swapped, type
`echo_ok`, in_reply_to 1, the freshly allocated msg_id 2, and the echo field
unchanged. -/
theorem echo_end_to_end :
    echo ⟨some "n1", 2, []⟩
        ⟨"c1", "n1", [("type", Json.str "echo"), ("msg_id", Json.num 1),
          ("echo", Json.str "hi")]⟩
      = some ⟨some "n1", 3,
          [⟨"n1", "c1", [("type", Json.str "echo_ok"), ("msg_id", Json.num 2),
            ("echo", Json.str "hi"), ("in_reply_to", Json.num 1)]⟩]⟩ :=
  rfl

/-- Claim C2, corrected: counterexample to "each of the two inbound broadcast
messages receives its own broadcast_ok reply".  Two broadcasts of value 5 on
a node with one neighbor produce exactly one broadcast_ok in total (the
`reply` sits inside `if self.seen.insert(message)`, so the duplicate gets no
reply), not the two the claim requires; the forward to the neighbor does
happen exactly once. -/
theorem broadcast_duplicate_single_ok_cex :
    ((broadcast ⟨[], ["n2"]⟩ ⟨some "n1", 1, []⟩
        ⟨"c1", "n1", [("type", Json.str "broadcast"), ("msg_id", Json.num 1),
          ("message", Json.num 5)]⟩).bind fun p =>
      broadcast p.1 p.2
        ⟨"c2", "n1", [("type", Json.str "broadcast"), ("msg_id", Json.num 2),
          ("message", Json.num 5)]⟩).map
        (fun p => ((p.2.output.filter fun m => hasType m "broadcast_ok").length,
                   (p.2.output.filter fun m => hasType m "broadcast").length))
      = some (1, 1) ∧ (1 : Nat) ≠ 2 :=
  ⟨rfl, by decide⟩

/-- Claim C2, amended: two inbound broadcast messages carrying the same new
value result in exactly one forward to each neighbor (not two); the first
inbound broadcast receives its broadcast_ok reply but the duplicate receives
no reply at all (the second call leaves the node completely unchanged). -/
theorem broadcast_dedup_single_reply (bn : BroadcastNode) (core : NodeCore)
    (msg1 msg2 : Message) (m k1 : Nat) (nid : String)
    (hid : core.id = some nid)
    (hnew : m ∉ bn.seen)
    (hm1 : (getKey msg1.body "message").bind Json.asU64 = some m)
    (hm2 : (getKey msg2.body "message").bind Json.asU64 = some m)
    (hk1 : msg1.msgIdField = some k1)
    (hfresh : core.next_msg_id ≠ u64Max) :
    broadcast bn core msg1 = some ({ bn with seen := m :: bn.seen },
      { core with
        next_msg_id := core.next_msg_id + 1
        output := core.output ++
          ⟨msg1.dest, msg1.src,
            [("type", Json.str "broadcast_ok"), ("in_reply_to", Json.num k1),
             ("msg_id", Json.num core.next_msg_id)]⟩ ::
          bn.neighbors.map fun nb =>
            ⟨nid, nb, [("type", Json.str "broadcast"),
              ("message", Json.num m)]⟩ }) ∧
    broadcast { bn with seen := m :: bn.seen }
      { core with
        next_msg_id := core.next_msg_id + 1
        output := core.output ++
          ⟨msg1.dest, msg1.src,
            [("type", Json.str "broadcast_ok"), ("in_reply_to", Json.num k1),
             ("msg_id", Json.num core.next_msg_id)]⟩ ::
          bn.neighbors.map fun nb =>
            ⟨nid, nb, [("type", Json.str "broadcast"),
              ("message", Json.num m)]⟩ } msg2
    = some ({ bn with seen := m :: bn.seen },
      { core with
        next_msg_id := core.next_msg_id + 1
        output := core.output ++
          ⟨msg1.dest, msg1.src,
            [("type", Json.str "broadcast_ok"), ("in_reply_to", Json.num k1),
             ("msg_id", Json.num core.next_msg_id)]⟩ ::
          bn.neighbors.map fun nb =>
            ⟨nid, nb, [("type", Json.str "broadcast"),
              ("message", Json.num m)]⟩ }) := by
  have hins : bn.insertSeen m = (true, { bn with seen := m :: bn.seen }) := by
    simp [BroadcastNode.insertSeen, hnew]
  have hins2 : BroadcastNode.insertSeen { bn with seen := m :: bn.seen } m
      = (false, { bn with seen := m :: bn.seen }) := by
    simp [BroadcastNode.insertSeen]
  constructor
  · simp only [broadcast, hm1, Option.bind_eq_bind, Option.some_bind, hins]
    rw [reply_eq core msg1 _ k1 hk1 hfresh]
    simp only [Option.some_bind]
    have hsend := sendAll_eq ⟨core.id, core.next_msg_id + 1,
        core.output ++ [⟨msg1.dest, msg1.src,
          insertKey (insertKey (insertKey [] "type" (Json.str "broadcast_ok"))
            "in_reply_to" (Json.num k1)) "msg_id"
            (Json.num core.next_msg_id)⟩]⟩
      bn.neighbors
      (insertKey (insertKey [] "type" (Json.str "broadcast")) "message"
        (Json.num m)) nid hid
    rw [hsend]
    simp [insertKey]
  · simp only [broadcast, hm2, Option.bind_eq_bind, Option.some_bind, hins2]

/-- Witness for C2's amended theorem on a node with neighbors n2, n3. -/
theorem broadcast_dedup_single_reply_witness :
    broadcast ⟨[], ["n2", "n3"]⟩ ⟨some "n1", 1, []⟩
        ⟨"c1", "n1", [("type", Json.str "broadcast"), ("msg_id", Json.num 1),
          ("message", Json.num 5)]⟩
      = some (⟨[5], ["n2", "n3"]⟩,
        ⟨some "n1", 2,
          [⟨"n1", "c1", [("type", Json.str "broadcast_ok"),
            ("in_reply_to", Json.num 1), ("msg_id", Json.num 1)]⟩,
           ⟨"n1", "n2", [("type", Json.str "broadcast"),
            ("message", Json.num 5)]⟩,
           ⟨"n1", "n3", [("type", Json.str "broadcast"),
            ("message", Json.num 5)]⟩]⟩) ∧
    broadcast ⟨[5], ["n2", "n3"]⟩
        ⟨some "n1", 2,
          [⟨"n1", "c1", [("type", Json.str "broadcast_ok"),
            ("in_reply_to", Json.num 1), ("msg_id", Json.num 1)]⟩,
           ⟨"n1", "n2", [("type", Json.str "broadcast"),
            ("message", Json.num 5)]⟩,
           ⟨"n1", "n3", [("type", Json.str "broadcast"),
            ("message", Json.num 5)]⟩]⟩
        ⟨"c2", "n1", [("type", Json.str "broadcast"), ("msg_id", Json.num 2),
          ("message", Json.num 5)]⟩
      = some (⟨[5], ["n2", "n3"]⟩,
        ⟨some "n1", 2,
          [⟨"n1", "c1", [("type", Json.str "broadcast_ok"),
            ("in_reply_to", Json.num 1), ("msg_id", Json.num 1)]⟩,
           ⟨"n1", "n2", [("type", Json.str "broadcast"),
            ("message", Json.num 5)]⟩,
           ⟨"n1", "n3", [("type", Json.str "broadcast"),
            ("message", Json.num 5)]⟩]⟩) :=
  broadcast_dedup_single_reply ⟨[], ["n2", "n3"]⟩ ⟨some "n1", 1, []⟩
    ⟨"c1", "n1", [("type", Json.str "broadcast"), ("msg_id", Json.num 1),
      ("message", Json.num 5)]⟩
    ⟨"c2", "n1", [("type", Json.str "broadcast"), ("msg_id", Json.num 2),
      ("message", Json.num 5)]⟩
    5 1 "n1" rfl (by decide) rfl rfl rfl (by decide)

/-- Claim C3, corrected: counterexample to "no subsequent inbound message,
including a second message of type init, changes the stored node address".
The init handler stays registered, so a second init message re-runs the
handshake and overwrites the identity: after inits for n1 then n2 the stored
id is n2, not n1. -/
theorem second_init_overwrites_identity_cex :
    (runLoop nodeApp newNode
        [⟨"c0", "x", [("type", Json.str "init"), ("msg_id", Json.num 1),
          ("node_id", Json.str "n1")]⟩,
         ⟨"c0", "x", [("type", Json.str "init"), ("msg_id", Json.num 2),
          ("node_id", Json.str "n2")]⟩]).map (fun p => p.1.st.id)
      = some (some "n2") ∧
    (some "n2" ≠ (some "n1" : Option String)) ∧
    (runLoop nodeApp newNode
        [⟨"c0", "x", [("type", Json.str "init"), ("msg_id", Json.num 1),
          ("node_id", Json.str "n1")]⟩]).map (fun p => p.1.st.id)
      = some (some "n1") :=
  ⟨rfl, by decide, rfl⟩

/-- Claim C3, amended: the stored node address is written only by messages of
type init — any non-init inbound message leaves it unchanged (application
handlers are sealed away from set_id) — but each init message, including a
second one, re-runs the handshake and overwrites it with its own node_id. -/
theorem identity_written_only_by_init (s s2 : RunSt NodeCore LibHandler)
    (msg : Message) (t : String) (tr : List Message)
    (ht : msg.typeField = some t)
    (hreg : ∀ p ∈ s.handlers, p.2 = LibHandler.initH → p.1 = "init")
    (hinitH : lookupH s.handlers "init" = some LibHandler.initH)
    (hrun : runLoop nodeApp s [msg] = some (s2, tr)) :
    s2.st.id = if t = "init" then (getKey msg.body "node_id").bind Json.asStr
               else s.st.id := by
  simp only [runLoop, ht, Option.bind_eq_bind, Option.some_bind] at hrun
  cases hrem : removeEntry s.handlers t with
  | none =>
      simp only [hrem, runLoop] at hrun
      have hnone := (removeEntry_eq_none_iff s.handlers t).1 hrem
      have htne : t ≠ "init" := by
        intro he
        rw [he, hinitH] at hnone
        cases hnone
      simp only [Option.some.injEq, Prod.mk.injEq] at hrun
      rw [← hrun.1, if_neg htne]
  | some pr =>
      obtain ⟨h, hs⟩ := pr
      simp only [hrem] at hrun
      cases happl : nodeApp h s.st hs msg with
      | none => simp [happl] at hrun
      | some pr2 =>
          obtain ⟨st2, hs2⟩ := pr2
          simp only [happl, Option.some_bind, Option.some.injEq,
            Prod.mk.injEq] at hrun
          have hst2 : s2.st = st2 := by rw [← hrun.1]
          have hlook : lookupH s.handlers t = some h :=
            removeEntry_lookupH s.handlers t h hs hrem
          by_cases hinit : t = "init"
          · subst hinit
            rw [hlook] at hinitH
            cases hinitH
            simp only [nodeApp, applyHandler, init_handler] at happl
            cases hm : reply (set_id s.st ((getKey msg.body "node_id").bind
                Json.asStr)) msg (insertKey [] "type" (.str "init_ok")) with
            | none => rw [hm] at happl; cases happl
            | some c2 =>
                rw [hm] at happl
                simp only [Option.map_some', Option.some.injEq,
                  Prod.mk.injEq] at happl
                have hc2 := reply_id_preserved _ _ _ _ hm
                rw [if_pos rfl, hst2, ← happl.1, hc2]
                rfl
          · have huser : ∃ f, h = LibHandler.user f := by
              cases h with
              | initH => exact absurd (hreg (t, LibHandler.initH)
                  (lookupH_mem s.handlers t _ hlook) rfl) hinit
              | user f => exact ⟨f, rfl⟩
            obtain ⟨f, rfl⟩ := huser
            simp only [nodeApp, applyHandler] at happl
            cases hm : f s.st.next_msg_id s.st.output msg with
            | none => rw [hm] at happl; cases happl
            | some p2 =>
                rw [hm] at happl
                simp only [Option.map_some', Option.some.injEq,
                  Prod.mk.injEq] at happl
                rw [if_neg hinit, hst2, ← happl.1]

/-- Witness for C3's amended theorem: a non-init echo message on a
post-handshake node leaves the identity untouched. -/
theorem identity_written_only_by_init_witness :
    (some "n1" : Option String) =
      if "echo" = "init"
      then (getKey ([("type", Json.str "echo"), ("msg_id", Json.num 9)] : Body)
        "node_id").bind Json.asStr
      else some "n1" :=
  identity_written_only_by_init nodeWithNoopEcho nodeWithNoopEcho
    ⟨"c1", "n1", [("type", Json.str "echo"), ("msg_id", Json.num 9)]⟩
    "echo" [⟨"c1", "n1", [("type", Json.str "echo"), ("msg_id", Json.num 9)]⟩]
    rfl
    (by
      intro p hp hinit
      rcases List.mem_cons.1 hp with rfl | hp2
      · rfl
      · rcases List.mem_cons.1 hp2 with rfl | hp3
        · cases hinit
        · cases hp3)
    rfl rfl

/-- Claim C5, confirmed: on a fresh node, an inbound init message carrying a
node_id and a msg_id makes the runtime store the node address in the identity
cell and emit exactly one init_ok reply whose in_reply_to equals the init
message's msg_id (and whose msg_id is the first allocated id, 1). -/
theorem init_handshake_stores_id_and_replies (msg : Message) (nid : String)
    (k : Nat)
    (ht : msg.typeField = some "init")
    (hnid : getKey msg.body "node_id" = some (Json.str nid))
    (hk : msg.msgIdField = some k) :
    runLoop nodeApp newNode [msg]
      = some (⟨⟨some nid, 2,
          [⟨msg.dest, msg.src,
            [("type", Json.str "init_ok"), ("in_reply_to", Json.num k),
             ("msg_id", Json.num 1)]⟩]⟩, [("init", LibHandler.initH)]⟩,
         [msg]) := by
  have hinit2 : init_handler ⟨none, 1, []⟩ msg
      = some ⟨some nid, 2,
          [⟨msg.dest, msg.src,
            [("type", Json.str "init_ok"), ("in_reply_to", Json.num k),
             ("msg_id", Json.num 1)]⟩]⟩ := by
    have hrep := reply_eq ⟨some nid, 1, []⟩ msg
        (insertKey [] "type" (.str "init_ok")) k hk
        (by show (1 : Nat) ≠ u64Max; decide)
    simp only [init_handler, set_id, hnid, Option.some_bind, Json.asStr]
    rw [hrep]
    simp [insertKey]
  have hrem : removeEntry newNode.handlers "init"
      = some (LibHandler.initH, []) := rfl
  simp only [runLoop, ht, Option.bind_eq_bind, Option.some_bind, hrem]
  have happ2 : nodeApp LibHandler.initH newNode.st [] msg
      = some (⟨some nid, 2,
          [⟨msg.dest, msg.src,
            [("type", Json.str "init_ok"), ("in_reply_to", Json.num k),
             ("msg_id", Json.num 1)]⟩]⟩, []) := by
    simp only [nodeApp, applyHandler]
    rw [show newNode.st = (⟨none, 1, []⟩ : NodeCore) from rfl, hinit2]
    rfl
  rw [happ2]
  simp [insertH]

/-- Witness for C5's theorem at a concrete init message assigning n1. -/
theorem init_handshake_stores_id_and_replies_witness :
    runLoop nodeApp newNode
        [⟨"c0", "n1", [("type", Json.str "init"), ("msg_id", Json.num 1),
          ("node_id", Json.str "n1")]⟩]
      = some (⟨⟨some "n1", 2,
          [⟨"n1", "c0",
            [("type", Json.str "init_ok"), ("in_reply_to", Json.num 1),
             ("msg_id", Json.num 1)]⟩]⟩, [("init", LibHandler.initH)]⟩,
         [⟨"c0", "n1", [("type", Json.str "init"), ("msg_id", Json.num 1),
          ("node_id", Json.str "n1")]⟩]) :=
  init_handshake_stores_id_and_replies
    ⟨"c0", "n1", [("type", Json.str "init"), ("msg_id", Json.num 1),
      ("node_id", Json.str "n1")]⟩ "n1" 1 rfl rfl rfl

/-- Claim C8, confirmed: the dispatch loop is a strict single consumer — the
trace of handler invocations produced by running the loop over an inbound
message list equals that list, in order (each handler runs to completion
before the next message is dequeued, which the sequential fold makes
structural). -/
theorem handlers_fire_in_input_order {St H : Type}
    (app : H → St → List (String × H) → Message →
      Option (St × List (String × H)))
    (happ : ∀ h st hs msg r, app h st hs msg = some r → r.2 = hs)
    (s s2 : RunSt St H) (msgs : List Message) (tr : List Message)
    (hnd : (s.handlers.map Prod.fst).Nodup)
    (hall : ∀ m ∈ msgs, ∃ t, m.typeField = some t ∧
      (lookupH s.handlers t).isSome = true)
    (hrun : runLoop app s msgs = some (s2, tr)) :
    tr = msgs := by
  induction msgs generalizing s s2 tr with
  | nil =>
      simp only [runLoop, Option.some.injEq, Prod.mk.injEq] at hrun
      exact hrun.2.symm
  | cons msg rest ih =>
      obtain ⟨t, ht, hsome⟩ := hall msg (List.mem_cons_self _ _)
      simp only [runLoop, ht, Option.bind_eq_bind, Option.some_bind] at hrun
      cases hrem : removeEntry s.handlers t with
      | none =>
          exfalso
          have hn := (removeEntry_eq_none_iff s.handlers t).1 hrem
          simp [hn] at hsome
      | some pr =>
          obtain ⟨h, hs⟩ := pr
          simp only [hrem] at hrun
          cases happl : app h s.st hs msg with
          | none => simp [happl] at hrun
          | some pr2 =>
              obtain ⟨st2, hs2⟩ := pr2
              have hs2eq : hs2 = hs := happ h s.st hs msg (st2, hs2) happl
              subst hs2eq
              simp only [happl, Option.some_bind] at hrun
              cases hrec : runLoop app ⟨st2, insertH hs2 t h⟩ rest with
              | none => simp [hrec] at hrun
              | some pr3 =>
                  obtain ⟨s1, tr1⟩ := pr3
                  simp only [hrec, Option.some_bind, Option.some.injEq,
                    Prod.mk.injEq] at hrun
                  have hnd2 : ((insertH hs2 t h).map Prod.fst).Nodup :=
                    insertH_keys_nodup hs2 t h
                      (removeEntry_keys_nodup s.handlers t h hs2 hnd hrem).1
                  have hall2 : ∀ m ∈ rest, ∃ t2, m.typeField = some t2 ∧
                      (lookupH (insertH hs2 t h) t2).isSome = true := by
                    intro m hm
                    obtain ⟨t2, ht2, hsome2⟩ :=
                      hall m (List.mem_cons_of_mem _ hm)
                    refine ⟨t2, ht2, ?_⟩
                    rw [dispatch_restores_lookup s.handlers t h hs2 hrem t2]
                    exact hsome2
                  have htr1 := ih ⟨st2, insertH hs2 t h⟩ s1 tr1 hnd2 hall2 hrec
                  rw [← hrun.2, htr1]

/-- Witness for C8's theorem: three messages with types a, b, c on a registry
with handlers for a, b, c fire in exactly input order. -/
theorem handlers_fire_in_input_order_witness :
    ([⟨"c1", "n1", [("type", Json.str "a")]⟩,
      ⟨"c2", "n1", [("type", Json.str "b")]⟩,
      ⟨"c3", "n1", [("type", Json.str "c")]⟩] : List Message)
    = [⟨"c1", "n1", [("type", Json.str "a")]⟩,
       ⟨"c2", "n1", [("type", Json.str "b")]⟩,
       ⟨"c3", "n1", [("type", Json.str "c")]⟩] :=
  handlers_fire_in_input_order
    (fun (_ : Nat) (st : Nat) hs (_ : Message) => some (st, hs))
    (fun h st hs msg r hr => by cases hr; rfl)
    ⟨0, [("a", 1), ("b", 2), ("c", 3)]⟩
    ⟨0, [("a", 1), ("b", 2), ("c", 3)]⟩
    [⟨"c1", "n1", [("type", Json.str "a")]⟩,
     ⟨"c2", "n1", [("type", Json.str "b")]⟩,
     ⟨"c3", "n1", [("type", Json.str "c")]⟩]
    [⟨"c1", "n1", [("type", Json.str "a")]⟩,
     ⟨"c2", "n1", [("type", Json.str "b")]⟩,
     ⟨"c3", "n1", [("type", Json.str "c")]⟩]
    (by decide)
    (by
      intro m hm
      rcases List.mem_cons.1 hm with rfl | hm2
      · exact ⟨"a", rfl, rfl⟩
      · rcases List.mem_cons.1 hm2 with rfl | hm3
        · exact ⟨"b", rfl, rfl⟩
        · rcases List.mem_cons.1 hm3 with rfl | hm4
          · exact ⟨"c", rfl, rfl⟩
          · cases hm4)
    rfl

/-- Claim C10, confirmed: while a message of type t is dispatched, the
registry passed to the handler has no entry for t (run removes the entry
first), and after the handler returns the removed handler is reinserted
under t, overwriting whatever the handler may have registered there — for
every possible handler action app. -/
theorem dispatch_removes_then_reinserts {St H : Type}
    (app : H → St → List (String × H) → Message →
      Option (St × List (String × H)))
    (s s2 : RunSt St H) (msg : Message) (t : String) (h : H)
    (rest : List (String × H)) (tr : List Message)
    (ht : msg.typeField = some t)
    (hnd : (s.handlers.map Prod.fst).Nodup)
    (hrem : removeEntry s.handlers t = some (h, rest))
    (hrun : runLoop app s [msg] = some (s2, tr)) :
    lookupH rest t = none ∧ lookupH s2.handlers t = some h := by
  refine ⟨lookupH_removeEntry_self s.handlers t h rest hnd hrem, ?_⟩
  simp only [runLoop, ht, Option.bind_eq_bind, Option.some_bind, hrem] at hrun
  cases happl : app h s.st rest msg with
  | none => simp [happl] at hrun
  | some pr =>
      obtain ⟨st2, hs2⟩ := pr
      simp only [happl, Option.some_bind, Option.some.injEq,
        Prod.mk.injEq] at hrun
      rw [← hrun.1]
      exact lookupH_insertH_self hs2 t h

/-- Witness for C10's theorem with a handler action that registers a new
handler under the dispatched type t: the reinsertion overwrites it. -/
theorem dispatch_removes_then_reinserts_witness :
    lookupH ([] : List (String × Nat)) "a" = none ∧
    lookupH [("a", 1)] "a" = some 1 :=
  dispatch_removes_then_reinserts
    (fun (_ : Nat) (st : Nat) hs (_ : Message) => some (st, insertH hs "a" 99))
    ⟨0, [("a", 1)]⟩ ⟨0, [("a", 1)]⟩
    ⟨"x", "y", [("type", Json.str "a")]⟩ "a" 1 []
    [⟨"x", "y", [("type", Json.str "a")]⟩]
    rfl (by decide) rfl rfl

end GossipGlomers
